import Mathlib

/-!
Verification of the address-resolution and offset-synthesis core of
`mtkclient/Library/utils.py` (classes `ELF` and `Patchtools`).

Shallow embedding conventions:
* Python byte strings are `List Nat` with every element `< 256`.
* Python unbounded ints are `Int`; nonnegative quantities read from files are `Nat`.
* `struct.pack` raising `struct.error` on out-of-range arguments is modelled by
  `Option`: `none` is the raised exception.
* `struct.unpack` on a slice of the wrong length (Python raises `struct.error`)
  and indexing past the end of the data (Python raises `IndexError`) are
  modelled by `Except ParseError`.
* Python `x & m` on an arbitrary (possibly negative) int, for a mask
  `0 ≤ m < 2^32`, equals `(x mod 2^32) &&& m` where `mod` is the
  mathematician's (always nonnegative) remainder, i.e. `Int.emod` with a
  positive modulus; this is how masks are rendered below.
-/

namespace Mtk

/-- The literal list `badchars` of `Patchtools.has_bad_uart_chars`:
`[b'\x00', b'\n', b'\r', b'\x08', b'\x7f', b'\x20', b'\x09']`, as byte values. -/
def badchars : List Nat := [0x00, 0x0A, 0x0D, 0x08, 0x7F, 0x20, 0x09]

/-- `Patchtools.has_bad_uart_chars(data)`: scans `data` and returns `True` as
soon as some byte is in `badchars`, else `False`. -/
def has_bad_uart_chars (data : List Nat) : Bool :=
  data.any (fun c => badchars.contains c)

/-- The literal list `badchars` declared locally inside `Patchtools.uart_valid_sc`
(textually the same list as the one in `has_bad_uart_chars`). -/
def sc_badchars : List Nat := [0x00, 0x0A, 0x0D, 0x08, 0x7F, 0x20, 0x09]

/-- `Patchtools.uart_valid_sc(sc)`: returns `False` on the first byte of `sc`
that is in its local `badchars` list (the source also prints a diagnostic,
a side effect dropped by this pure model), and `True` if none is found. -/
def uart_valid_sc : List Nat → Bool
  | [] => true
  | c :: rest => if sc_badchars.contains c then false else uart_valid_sc rest

/-- `struct.pack("<I", n)`: the 4 little-endian bytes of `n`;
`none` models the `struct.error` raised when `n` is not in `[0, 2^32)`. -/
def pack32 (n : Int) : Option (List Nat) :=
  if 0 ≤ n ∧ n < 4294967296 then
    some [n.toNat % 256, n.toNat / 256 % 256, n.toNat / 65536 % 256,
          n.toNat / 16777216 % 256]
  else none

/-- `struct.pack("<H", n)` for a nonnegative `n`: the 2 little-endian bytes;
`none` models the `struct.error` raised when `n ≥ 2^16`. -/
def pack16 (n : Nat) : Option (List Nat) :=
  if n < 65536 then some [n % 256, n / 256] else none

/-- The successive values taken by `div` in each `while div < 0x606: ... div += 4`
loop of `Patchtools.generate_offset`: `0, 4, 8, ..., 0x604`. -/
def divCandidates : List Nat := (List.range 386).map (fun i => 4 * i)

/-- One `while` loop of `Patchtools.generate_offset`, scanning the remaining
divisor candidates. `bad` is the `self.has_bad_uart_chars` method (always
instantiated with `has_bad_uart_chars` below); `neg` selects the second pass
(`offset - div`) over the first (`offset + div`). Outer `none`: a
`struct.error` escaped the loop; `some none`: the loop exhausted its bound;
`some (some r)`: the loop returned `r` (`div` in the first pass, `-div` in
the second). -/
def passLoopGen (bad : List Nat → Bool) (base : Int) (neg : Bool) :
    List Nat → Option (Option Int)
  | [] => some none
  | d :: rest =>
    match pack32 (if neg then base - (d : Int) else base + (d : Int)), pack16 d with
    | some data, some data2 =>
      if bad data then passLoopGen bad base neg rest
      else if bad data2 then passLoopGen bad base neg rest
      else some (some (if neg then -(d : Int) else (d : Int)))
    | some _, none => none
    | none, _ => none

/-- Number of loop iterations `passLoopGen` performs on the given candidate
list: it mirrors `passLoopGen` but counts instead of returning the result
(an iteration that returns — by success or by a raised `struct.error` —
still counts as one). -/
def passSteps (bad : List Nat → Bool) (base : Int) (neg : Bool) :
    List Nat → Nat
  | [] => 0
  | d :: rest =>
    match pack32 (if neg then base - (d : Int) else base + (d : Int)), pack16 d with
    | some data, some data2 =>
      if bad data then 1 + passSteps bad base neg rest
      else if bad data2 then 1 + passSteps bad base neg rest
      else 1
    | some _, none => 1
    | none, _ => 1

/-- `Patchtools.generate_offset(offset)`: the ascending positive pass, then the
ascending negative pass, then the fallback `0`. `none` models an escaped
`struct.error`. -/
def generate_offset (offset : Int) : Option Int :=
  match passLoopGen has_bad_uart_chars offset false divCandidates with
  | none => none
  | some (some d) => some d
  | some none =>
    match passLoopGen has_bad_uart_chars offset true divCandidates with
    | none => none
    | some (some d) => some d
    | some none => some 0

/-- Whether candidate divisor `d` passes the body of the corresponding
`generate_offset` loop: both `struct.pack` calls succeed and neither encoding
contains a forbidden byte. -/
def divOkAt (base : Int) (neg : Bool) (d : Nat) : Bool :=
  match pack32 (if neg then base - (d : Int) else base + (d : Int)), pack16 d with
  | some data, some data2 => !has_bad_uart_chars data && !has_bad_uart_chars data2
  | _, _ => false

/-- Python's `hex` builtin: `"0x"` plus lowercase hex digits, `"-0x..."` for
negative arguments, `"0x0"` for zero. -/
def pyhex (n : Int) : String :=
  if n < 0 then "-0x" ++ String.mk (Nat.toDigits 16 (-n).toNat)
  else "0x" ++ String.mk (Nat.toDigits 16 n.toNat)

/-- Python `x & m` for an arbitrary int `x` and mask `0 ≤ m < 2^32`:
only the low 32 bits of `x` can meet the mask, and Python's `%` on a
positive modulus (= `Int.emod` here) gives the two's-complement low bits
of a negative `x`. -/
def pyMask32 (x : Int) (m : Nat) : Nat :=
  (x.emod 4294967296).toNat &&& m

/-- `Patchtools.generate_offset_asm(offset, reg)`: computes the divisor, then
emits the comment line, `mov` of the low 16 bits of `offset + div`, `movk` of
the high 16 bits, and `sub` of `div` when `div > 0`, else `add` of `-div`.
`none` models the `struct.error` escaping from `generate_offset`. -/
def generate_offset_asm (offset : Int) (reg : String) : Option String :=
  (generate_offset offset).map (fun div =>
    let abase : Nat := (pyMask32 (offset + div) 0xFFFF0000) >>> 16
    let a : Nat := pyMask32 (offset + div) 0xFFFF
    let strasm := ""
    let strasm := strasm ++ "# " ++ pyhex offset ++ "\n"
    let strasm := strasm ++ "mov " ++ reg ++ ", #" ++ pyhex (a : Int) ++ ";\n"
    let strasm := strasm ++ "movk " ++ reg ++ ", #" ++ pyhex (abase : Int) ++ ", LSL#16;\n"
    let strasm :=
      if div > 0 then strasm ++ "sub  " ++ reg ++ ", " ++ reg ++ ", #" ++ pyhex div ++ ";\n"
      else strasm ++ "add  " ++ reg ++ ", " ++ reg ++ ", #" ++ pyhex (-div) ++ ";\n"
    strasm)

/-- `ELF.MemorySegment`: the five per-segment addresses built in `ELF.__init__`. -/
structure MemorySegment where
  phy_addr : Nat := 0
  virt_start_addr : Nat := 0
  virt_end_addr : Nat := 0
  file_start_addr : Nat := 0
  file_end_addr : Nat := 0
deriving DecidableEq

/-- `ELF.getfileoffset(offset)`: first segment (in table order) whose virtual
range contains `offset` (bounds inclusive), mapped into the file; `none`
when no segment matches. -/
def getfileoffset : List MemorySegment → Nat → Option Nat
  | [], _ => none
  | ms :: rest, offset =>
    if ms.virt_end_addr ≥ offset ∧ offset ≥ ms.virt_start_addr then
      some (offset - ms.virt_start_addr + ms.file_start_addr)
    else getfileoffset rest offset

/-- `ELF.getvirtaddr(fileoffset)`: first segment whose file range contains
`fileoffset` (bounds inclusive), mapped into virtual space; `none` when no
segment matches. -/
def getvirtaddr : List MemorySegment → Nat → Option Nat
  | [], _ => none
  | ms :: rest, fileoffset =>
    if ms.file_end_addr ≥ fileoffset ∧ fileoffset ≥ ms.file_start_addr then
      some (ms.virt_start_addr + fileoffset - ms.file_start_addr)
    else getvirtaddr rest fileoffset

/-- `ELF.getbaseaddr(offset)`: first segment whose virtual range contains
`offset`, returning its `virt_start_addr`; `none` when no segment matches. -/
def getbaseaddr : List MemorySegment → Nat → Option Nat
  | [], _ => none
  | ms :: rest, offset =>
    if ms.virt_end_addr ≥ offset ∧ offset ≥ ms.virt_start_addr then
      some ms.virt_start_addr
    else getbaseaddr rest offset

/-- `ELF.ProgramEntry` with its class-level zero defaults. -/
structure ProgramEntry where
  p_type : Nat := 0
  from_file : Nat := 0
  virt_addr : Nat := 0
  phy_addr : Nat := 0
  seg_file_len : Nat := 0
  seg_mem_len : Nat := 0
  p_flags : Nat := 0
  p_align : Nat := 0
deriving DecidableEq

/-- Python slice `data[start:stop]` for nonnegative bounds (out-of-range
bounds clamp; an empty slice results when `stop ≤ start`). -/
def pySlice (data : List Nat) (start stop : Nat) : List Nat :=
  (data.drop start).take (stop - start)

/-- Value of a little-endian byte list. -/
def leNat (bytes : List Nat) : Nat :=
  bytes.foldr (fun b acc => b + 256 * acc) 0

/-- Failures of `ELF.parse`. `InvalidClass` models the source's
error path for an unrecognized class byte (it prints a message and returns
the sentinel `['', '']`, producing no program entries). `BadRead` models a
Python `struct.error`/`IndexError` on truncated input. -/
inductive ParseError where
  | InvalidClass : ParseError
  | BadRead : ParseError
deriving DecidableEq

/-- `ELF.parse_programentry(dat)`: `struct.unpack("<IIIIIIII", dat)` for the
32-bit class (requires exactly 32 bytes), `struct.unpack("<IIQQQQQQ", dat)`
for the 64-bit class (requires exactly 56 bytes); any other class leaves the
default zeroed entry, as the source's fallthrough does. -/
def parse_programentry (elfclass : Nat) (dat : List Nat) :
    Except ParseError ProgramEntry :=
  if elfclass = 1 then
    if dat.length = 32 then
      Except.ok
        { p_type := leNat (pySlice dat 0 4), from_file := leNat (pySlice dat 4 8),
          virt_addr := leNat (pySlice dat 8 12), phy_addr := leNat (pySlice dat 12 16),
          seg_file_len := leNat (pySlice dat 16 20), seg_mem_len := leNat (pySlice dat 20 24),
          p_flags := leNat (pySlice dat 24 28), p_align := leNat (pySlice dat 28 32) }
    else Except.error ParseError.BadRead
  else if elfclass = 2 then
    if dat.length = 56 then
      Except.ok
        { p_type := leNat (pySlice dat 0 4), p_flags := leNat (pySlice dat 4 8),
          from_file := leNat (pySlice dat 8 16), virt_addr := leNat (pySlice dat 16 24),
          phy_addr := leNat (pySlice dat 24 32), seg_file_len := leNat (pySlice dat 32 40),
          seg_mem_len := leNat (pySlice dat 40 48), p_align := leNat (pySlice dat 48 56) }
    else Except.error ParseError.BadRead
  else Except.ok {}

/-- `ELF.parse()`: reads the class byte `data[4]`, picks the class-dependent
offset of the `<HHH>` triplet (header size, entry size, entry count), slices
the header, and decodes each program-header entry. A class byte other than
1 or 2 is the `InvalidClass` error path. -/
def parse (data : List Nat) : Except ParseError (List Nat × List ProgramEntry) :=
  match data.get? 4 with
  | none => Except.error ParseError.BadRead
  | some elfclass =>
    match (if elfclass = 1 then some 0x28 else if elfclass = 2 then some 0x34 else none : Option Nat) with
    | none => Except.error ParseError.InvalidClass
    | some start =>
      let hdrbytes := pySlice data start (start + 3 * 2)
      if hdrbytes.length = 6 then
        let elfheadersize := leNat (pySlice hdrbytes 0 2)
        let programheaderentrysize := leNat (pySlice hdrbytes 2 4)
        let programheaderentrycount := leNat (pySlice hdrbytes 4 6)
        let programheadersize := programheaderentrysize * programheaderentrycount
        let header := pySlice data 0 (elfheadersize + programheadersize)
        match (List.range programheaderentrycount).mapM
            (fun i => parse_programentry elfclass
              (pySlice data (elfheadersize + i * programheaderentrysize)
                (elfheadersize + i * programheaderentrysize + programheaderentrysize))) with
        | Except.error e => Except.error e
        | Except.ok pentry => Except.ok (header, pentry)
      else Except.error ParseError.BadRead

/-- The loop of `ELF.__init__` building `self.memorylayout` from the parsed
program entries. -/
def buildLayout (pentry : List ProgramEntry) : List MemorySegment :=
  pentry.map (fun entry =>
    { phy_addr := entry.phy_addr,
      virt_start_addr := entry.virt_addr,
      virt_end_addr := entry.virt_addr + entry.seg_mem_len,
      file_start_addr := entry.from_file,
      file_end_addr := entry.from_file + entry.seg_file_len })

/-- A concrete 64-bit image: class byte 2 at index 4; at `0x34` the `<HHH>`
triplet (header size `0x40`, entry size 56, one entry); at `0x40` one
program-header entry with `from_file = 0x40`, `virt_addr = 0x1000`,
`seg_file_len = 0x100`, `seg_mem_len = 0x200`. -/
def demoData : List Nat :=
  [0, 0, 0, 0, 2, 0, 0, 0, 0, 0, 0, 0, 0, 0, 0, 0,
   0, 0, 0, 0, 0, 0, 0, 0, 0, 0, 0, 0, 0, 0, 0, 0,
   0, 0, 0, 0, 0, 0, 0, 0, 0, 0, 0, 0, 0, 0, 0, 0,
   0, 0, 0, 0, 64, 0, 56, 0, 1, 0, 0, 0, 0, 0, 0, 0,
   1, 0, 0, 0, 0, 0, 0, 0, 64, 0, 0, 0, 0, 0, 0, 0,
   0, 16, 0, 0, 0, 0, 0, 0, 0, 0, 0, 0, 0, 0, 0, 0,
   0, 1, 0, 0, 0, 0, 0, 0, 0, 2, 0, 0, 0, 0, 0, 0,
   0, 0, 0, 0, 0, 0, 0, 0]

/-- The program entry `ELF.parse` decodes from `demoData`. -/
def demoEntry : ProgramEntry :=
  { p_type := 1, from_file := 0x40, virt_addr := 0x1000, phy_addr := 0,
    seg_file_len := 0x100, seg_mem_len := 0x200, p_flags := 0, p_align := 0 }

/-- The memory segment `ELF.__init__` builds from `demoEntry`. -/
def demoSeg : MemorySegment :=
  { phy_addr := 0, virt_start_addr := 0x1000, virt_end_addr := 0x1200,
    file_start_addr := 0x40, file_end_addr := 0x140 }

/-- The `memorylayout` of the parsed `demoData` image. -/
def demoLayout : List MemorySegment := [demoSeg]

/-! ### Helper lemmas: the three segment lookups as first-match scans -/

/-- `getfileoffset` is the translated first match of the virtual-range scan. -/
lemma getfileoffset_eq_find (layout : List MemorySegment) (q : Nat) :
    getfileoffset layout q =
      (layout.find? (fun s => decide (s.virt_end_addr ≥ q ∧ q ≥ s.virt_start_addr))).map
        (fun s => q - s.virt_start_addr + s.file_start_addr) := by
  induction layout with
  | nil => rfl
  | cons ms rest ih =>
    by_cases h : ms.virt_end_addr ≥ q ∧ q ≥ ms.virt_start_addr
    · simp [getfileoffset, List.find?_cons, h]
    · simp [getfileoffset, List.find?_cons, h, ih]

/-- `getvirtaddr` is the translated first match of the file-range scan. -/
lemma getvirtaddr_eq_find (layout : List MemorySegment) (q : Nat) :
    getvirtaddr layout q =
      (layout.find? (fun s => decide (s.file_end_addr ≥ q ∧ q ≥ s.file_start_addr))).map
        (fun s => s.virt_start_addr + q - s.file_start_addr) := by
  induction layout with
  | nil => rfl
  | cons ms rest ih =>
    by_cases h : ms.file_end_addr ≥ q ∧ q ≥ ms.file_start_addr
    · simp [getvirtaddr, List.find?_cons, h]
    · simp [getvirtaddr, List.find?_cons, h, ih]

/-- `getbaseaddr` is the base address of the first match of the virtual-range scan. -/
lemma getbaseaddr_eq_find (layout : List MemorySegment) (q : Nat) :
    getbaseaddr layout q =
      (layout.find? (fun s => decide (s.virt_end_addr ≥ q ∧ q ≥ s.virt_start_addr))).map
        (fun s => s.virt_start_addr) := by
  induction layout with
  | nil => rfl
  | cons ms rest ih =>
    by_cases h : ms.virt_end_addr ≥ q ∧ q ≥ ms.virt_start_addr
    · simp [getbaseaddr, List.find?_cons, h]
    · simp [getbaseaddr, List.find?_cons, h, ih]

/-! ### Helper lemmas: the divisor-search loops -/

/-- A successful pass returns the first candidate whose encodings are clean:
the scanned prefix was fully examined (both packs succeeded) and rejected. -/
lemma passLoopGen_success {base : Int} {neg : Bool} :
    ∀ {l : List Nat} {r : Int},
      passLoopGen has_bad_uart_chars base neg l = some (some r) →
      ∃ (l₁ : List Nat) (d : Nat) (l₂ : List Nat), l = l₁ ++ d :: l₂ ∧
        divOkAt base neg d = true ∧
        r = (if neg then -(d : Int) else (d : Int)) ∧
        ∀ m ∈ l₁,
          (pack32 (if neg then base - (m : Int) else base + (m : Int))).isSome = true ∧
          (pack16 m).isSome = true ∧ divOkAt base neg m = false := by
  intro l
  induction l with
  | nil => intro r h; simp [passLoopGen] at h
  | cons d rest ih =>
    intro r h
    cases hp32 : pack32 (if neg then base - (d : Int) else base + (d : Int)) with
    | none => simp [passLoopGen, hp32] at h
    | some data =>
      cases hp16 : pack16 d with
      | none => simp [passLoopGen, hp32, hp16] at h
      | some data2 =>
        simp only [passLoopGen, hp32, hp16] at h
        by_cases hb : has_bad_uart_chars data = true
        · rw [if_pos hb] at h
          obtain ⟨l₁, e, l₂, heq, hok, hr, hpre⟩ := ih h
          refine ⟨d :: l₁, e, l₂, by rw [heq]; rfl, hok, hr, ?_⟩
          intro m hm
          rcases List.mem_cons.mp hm with rfl | hm2
          · exact ⟨by rw [hp32]; rfl, by rw [hp16]; rfl,
              by simp [divOkAt, hp32, hp16, hb]⟩
          · exact hpre m hm2
        · rw [if_neg hb] at h
          by_cases hb2 : has_bad_uart_chars data2 = true
          · rw [if_pos hb2] at h
            obtain ⟨l₁, e, l₂, heq, hok, hr, hpre⟩ := ih h
            refine ⟨d :: l₁, e, l₂, by rw [heq]; rfl, hok, hr, ?_⟩
            intro m hm
            rcases List.mem_cons.mp hm with rfl | hm2
            · exact ⟨by rw [hp32]; rfl, by rw [hp16]; rfl,
                by simp [divOkAt, hp32, hp16, hb, hb2]⟩
            · exact hpre m hm2
          · rw [if_neg hb2] at h
            have hr : (if neg then -(d : Int) else (d : Int)) = r := by
              simpa using h
            refine ⟨[], d, rest, rfl, ?_, hr.symm, by intro m hm; cases hm⟩
            simp [divOkAt, hp32, hp16, hb, hb2]

/-- An exhausted pass examined every candidate (both packs succeeded) and
rejected each one. -/
lemma passLoopGen_exhaust {base : Int} {neg : Bool} :
    ∀ {l : List Nat},
      passLoopGen has_bad_uart_chars base neg l = some none →
      ∀ m ∈ l,
        (pack32 (if neg then base - (m : Int) else base + (m : Int))).isSome = true ∧
        (pack16 m).isSome = true ∧ divOkAt base neg m = false := by
  intro l
  induction l with
  | nil => intro h m hm; cases hm
  | cons d rest ih =>
    intro h m hm
    cases hp32 : pack32 (if neg then base - (d : Int) else base + (d : Int)) with
    | none => simp [passLoopGen, hp32] at h
    | some data =>
      cases hp16 : pack16 d with
      | none => simp [passLoopGen, hp32, hp16] at h
      | some data2 =>
        simp only [passLoopGen, hp32, hp16] at h
        by_cases hb : has_bad_uart_chars data = true
        · rw [if_pos hb] at h
          rcases List.mem_cons.mp hm with rfl | hm2
          · exact ⟨by rw [hp32]; rfl, by rw [hp16]; rfl,
              by simp [divOkAt, hp32, hp16, hb]⟩
          · exact ih h m hm2
        · rw [if_neg hb] at h
          by_cases hb2 : has_bad_uart_chars data2 = true
          · rw [if_pos hb2] at h
            rcases List.mem_cons.mp hm with rfl | hm2
            · exact ⟨by rw [hp32]; rfl, by rw [hp16]; rfl,
                by simp [divOkAt, hp32, hp16, hb, hb2]⟩
            · exact ih h m hm2
          · rw [if_neg hb2] at h
            simp at h

/-- If every candidate's pack calls are in range, no pass can raise. -/
lemma passLoopGen_isSome {bad : List Nat → Bool} {base : Int} {neg : Bool} :
    ∀ {l : List Nat},
      (∀ m ∈ l,
        (pack32 (if neg then base - (m : Int) else base + (m : Int))).isSome = true ∧
        (pack16 m).isSome = true) →
      (passLoopGen bad base neg l).isSome = true := by
  intro l
  induction l with
  | nil => intro _; rfl
  | cons d rest ih =>
    intro hall
    obtain ⟨h32, h16⟩ := hall d (List.mem_cons_self d rest)
    obtain ⟨data, hp32⟩ := Option.isSome_iff_exists.mp h32
    obtain ⟨data2, hp16⟩ := Option.isSome_iff_exists.mp h16
    have hrest := ih (fun m hm => hall m (List.mem_cons_of_mem d hm))
    by_cases hb : bad data = true
    · simpa [passLoopGen, hp32, hp16, hb] using hrest
    · by_cases hb2 : bad data2 = true
      · simpa [passLoopGen, hp32, hp16, hb, hb2] using hrest
      · simp [passLoopGen, hp32, hp16, hb, hb2]

/-- Candidate divisor `0` never passes: its 2-byte encoding is `00 00`. -/
lemma divOkAt_zero (base : Int) (neg : Bool) : divOkAt base neg 0 = false := by
  have h : (if neg then base - ((0 : Nat) : Int) else base + ((0 : Nat) : Int)) = base := by
    cases neg <;> simp
  unfold divOkAt
  rw [h]
  cases hp : pack32 base with
  | none => simp [hp]
  | some data => simp [hp, pack16, has_bad_uart_chars, badchars]

/-- Every nonnegative multiple of 4 below the bound `0x606` is a candidate. -/
lemma divCand_mem {m : Nat} (h4 : m % 4 = 0) (hlt : m < 1542) : m ∈ divCandidates := by
  simp only [divCandidates, List.mem_map, List.mem_range]
  exact ⟨m / 4, by omega, by omega⟩

/-- Candidates are multiples of 4 bounded by `0x604`. -/
lemma divCand_le {m : Nat} (hm : m ∈ divCandidates) : m ≤ 1540 ∧ m % 4 = 0 := by
  simp only [divCandidates, List.mem_map, List.mem_range] at hm
  obtain ⟨i, hi, rfl⟩ := hm
  omega

/-- Splitting the (strictly ascending) candidate list at an element: the
element is `4 * k` where `k` is the prefix length, and the prefix holds
exactly the smaller multiples of 4. -/
lemma divCand_split {l₁ : List Nat} {d : Nat} {l₂ : List Nat}
    (h : divCandidates = l₁ ++ d :: l₂) :
    d = 4 * l₁.length ∧ l₁.length < 386 ∧
      ∀ m : Nat, m ∈ l₁ ↔ ∃ j, j < l₁.length ∧ m = 4 * j := by
  have hlen : (386 : Nat) = l₁.length + (l₂.length + 1) := by
    have := congrArg List.length h
    simpa [divCandidates] using this
  have hk : l₁.length < 386 := by omega
  have htake : l₁ = divCandidates.take l₁.length := by
    rw [h, List.take_left]
  have hgetd : divCandidates[l₁.length]? = some d := by
    rw [h, List.getElem?_append_right (le_refl l₁.length)]
    simp
  have hget4 : divCandidates[l₁.length]? = some (4 * l₁.length) := by
    simp [divCandidates, List.getElem?_map, List.getElem?_range, hk]
  refine ⟨by rw [hgetd] at hget4; exact Option.some.inj hget4, hk, ?_⟩
  intro m
  constructor
  · intro hm
    rw [htake] at hm
    simp only [divCandidates, ← List.map_take, List.take_range] at hm
    simp only [List.mem_map, List.mem_range] at hm
    obtain ⟨j, hj, rfl⟩ := hm
    exact ⟨j, by omega, rfl⟩
  · rintro ⟨j, hj, rfl⟩
    rw [htake]
    simp only [divCandidates, ← List.map_take, List.take_range]
    simp only [List.mem_map, List.mem_range]
    exact ⟨j, by omega, rfl⟩

lemma pack32_isSome {n : Int} (h1 : 0 ≤ n) (h2 : n < 4294967296) :
    (pack32 n).isSome = true := by
  unfold pack32; rw [if_pos ⟨h1, h2⟩]; rfl

lemma pack16_isSome {n : Nat} (h : n < 65536) : (pack16 n).isSome = true := by
  unfold pack16; rw [if_pos h]; rfl

/-- Claim C1: whenever the divisor search of `generate_offset` succeeds
(equivalently the returned divisor is nonzero, since divisor `0` can only be
the fallback — its own 2-byte encoding contains the forbidden byte `0x00`),
the result is the smallest nonnegative multiple of 4 below the bound `0x606`
whose 4-byte encoding of `targetAddress + d` and 2-byte encoding of `d` are
both free of forbidden bytes; a negative divisor `-d` is returned only after
every nonnegative candidate below the bound has been examined and rejected,
and then `d` is the smallest magnitude passing for `targetAddress - d`. -/
theorem generate_offset_minimal (offset : Int) (d : Int)
    (h : generate_offset offset = some d) (hne : d ≠ 0) :
    (0 ≤ d → ∃ n : Nat, (n : Int) = d ∧ n % 4 = 0 ∧ n < 0x606 ∧
      divOkAt offset false n = true ∧
      ∀ m : Nat, m % 4 = 0 → m < n →
        (pack32 (offset + (m : Int))).isSome = true ∧ (pack16 m).isSome = true ∧
        divOkAt offset false m = false) ∧
    (d < 0 →
      (∀ m : Nat, m % 4 = 0 → m < 0x606 →
        (pack32 (offset + (m : Int))).isSome = true ∧ (pack16 m).isSome = true ∧
        divOkAt offset false m = false) ∧
      ∃ n : Nat, (n : Int) = -d ∧ n % 4 = 0 ∧ n < 0x606 ∧
        divOkAt offset true n = true ∧
        ∀ m : Nat, m % 4 = 0 → m < n →
          (pack32 (offset - (m : Int))).isSome = true ∧ (pack16 m).isSome = true ∧
          divOkAt offset true m = false) := by
  unfold generate_offset at h
  cases hpos : passLoopGen has_bad_uart_chars offset false divCandidates with
  | none => simp [hpos] at h
  | some o1 =>
    cases o1 with
    | some r =>
      simp only [hpos] at h
      have hrd : r = d := by simpa using h
      obtain ⟨l₁, n, l₂, heq, hok, hr, hpre⟩ := passLoopGen_success hpos
      have hrn : r = (n : Int) := by simpa using hr
      obtain ⟨hd4, hklt, hmem⟩ := divCand_split heq
      have hnlt : n < 0x606 := by omega
      have hn4 : n % 4 = 0 := by omega
      constructor
      · intro _
        refine ⟨n, by omega, hn4, hnlt, hok, ?_⟩
        intro m hm4 hmn
        have hml : m ∈ l₁ := (hmem m).mpr ⟨m / 4, by omega, by omega⟩
        have := hpre m hml
        simpa using this
      · intro hdneg
        have : (0 : Int) ≤ (n : Int) := Int.natCast_nonneg n
        omega
    | none =>
      simp only [hpos] at h
      cases hneg : passLoopGen has_bad_uart_chars offset true divCandidates with
      | none => simp [hneg] at h
      | some o2 =>
        cases o2 with
        | some r =>
          simp only [hneg] at h
          have hrd : r = d := by simpa using h
          obtain ⟨l₁, n, l₂, heq, hok, hr, hpre⟩ := passLoopGen_success hneg
          have hrn : r = -(n : Int) := by simpa using hr
          obtain ⟨hd4, hklt, hmem⟩ := divCand_split heq
          have hn0 : n ≠ 0 := by
            intro h0
            rw [h0] at hok
            rw [divOkAt_zero] at hok
            exact Bool.false_ne_true hok
          have hnpos : (0 : Int) < (n : Int) := by
            have : 0 < n := Nat.pos_of_ne_zero hn0
            exact_mod_cast this
          have hexh := passLoopGen_exhaust hpos
          constructor
          · intro hge
            omega
          · intro _
            constructor
            · intro m hm4 hmlt
              have hml : m ∈ divCandidates := divCand_mem hm4 hmlt
              have := hexh m hml
              simpa using this
            · refine ⟨n, by omega, by omega, by omega, hok, ?_⟩
              intro m hm4 hmn
              have hml : m ∈ l₁ := (hmem m).mpr ⟨m / 4, by omega, by omega⟩
              have := hpre m hml
              simpa using this
        | none =>
          simp only [hneg] at h
          have : (0 : Int) = d := by simpa using h
          omega

/-- Claim C5: any divisor returned by `generate_offset` — found by either
pass or the fallback `0` — has absolute value below the bound `0x606` and is
a multiple of 4. -/
theorem generate_offset_divisor_bounds (offset : Int) (d : Int)
    (h : generate_offset offset = some d) :
    d.natAbs < 0x606 ∧ (4 : Int) ∣ d := by
  unfold generate_offset at h
  cases hpos : passLoopGen has_bad_uart_chars offset false divCandidates with
  | none => simp [hpos] at h
  | some o1 =>
    cases o1 with
    | some r =>
      simp only [hpos] at h
      have hrd : r = d := by simpa using h
      obtain ⟨l₁, n, l₂, heq, hok, hr, hpre⟩ := passLoopGen_success hpos
      have hrn : r = (n : Int) := by simpa using hr
      obtain ⟨hd4, hklt, hmem⟩ := divCand_split heq
      constructor
      · have : d.natAbs = n := by omega
        omega
      · refine ⟨(l₁.length : Int), by omega⟩
    | none =>
      simp only [hpos] at h
      cases hneg : passLoopGen has_bad_uart_chars offset true divCandidates with
      | none => simp [hneg] at h
      | some o2 =>
        cases o2 with
        | some r =>
          simp only [hneg] at h
          have hrd : r = d := by simpa using h
          obtain ⟨l₁, n, l₂, heq, hok, hr, hpre⟩ := passLoopGen_success hneg
          have hrn : r = -(n : Int) := by simpa using hr
          obtain ⟨hd4, hklt, hmem⟩ := divCand_split heq
          constructor
          · have : d.natAbs = n := by omega
            omega
          · refine ⟨-(l₁.length : Int), by omega⟩
        | none =>
          simp only [hneg] at h
          have : (0 : Int) = d := by simpa using h

          exact ⟨by omega, ⟨0, by omega⟩⟩

lemma and_mask_hi_shift (m : Nat) : (m &&& 0xFFFF0000) >>> 16 = (m >>> 16) &&& 0xFFFF := by
  have h : (0xFFFF0000 : Nat) = 65535 <<< 16 := by norm_num [Nat.shiftLeft_eq]
  rw [h]
  apply Nat.eq_of_testBit_eq
  intro i
  simp only [Nat.testBit_shiftRight, Nat.testBit_and, Nat.testBit_shiftLeft]
  have h1 : 16 + i - 16 = i := by omega
  have h2 : (16 : Nat) ≤ 16 + i := by omega
  simp [h1, h2]

lemma mask_split (m : Nat) (hm : m < 4294967296) :
    (m &&& 0xFFFF) + 65536 * ((m &&& 0xFFFF0000) >>> 16) = m := by
  rw [and_mask_hi_shift]
  have h1 : m &&& 0xFFFF = m % 65536 := by
    have e : (0xFFFF : Nat) = 2 ^ 16 - 1 := by norm_num
    rw [e, Nat.and_pow_two_sub_one_eq_mod]
  have h2 : (m >>> 16) &&& 0xFFFF = m / 65536 % 65536 := by
    have e : (0xFFFF : Nat) = 2 ^ 16 - 1 := by norm_num
    rw [e, Nat.and_pow_two_sub_one_eq_mod, Nat.shiftRight_eq_div_pow]
  rw [h1, h2]
  omega

lemma passSteps_le_length (bad : List Nat → Bool) (base : Int) (neg : Bool) :
    ∀ l : List Nat, passSteps bad base neg l ≤ l.length := by
  intro l
  induction l with
  | nil => simp [passSteps]
  | cons d rest ih =>
    cases hp32 : pack32 (if neg then base - (d : Int) else base + (d : Int)) with
    | none =>
      simp only [passSteps, hp32, List.length_cons]
      omega
    | some data =>
      cases hp16 : pack16 d with
      | none =>
        simp only [passSteps, hp32, hp16, List.length_cons]
        omega
      | some data2 =>
        simp only [passSteps, hp32, hp16, List.length_cons]
        by_cases hb : bad data = true
        · rw [if_pos hb]; omega
        · rw [if_neg hb]
          by_cases hb2 : bad data2 = true
          · rw [if_pos hb2]; omega
          · rw [if_neg hb2]; omega

/-- Claim C6: each `while` pass of `generate_offset` scans the candidate
list `divCandidates` (`div = 0, 4, ..., 0x604`), which has exactly
`ceil(0x606 / 4) = 386` entries, and performs at most 386 iterations
regardless of which byte filter `bad` is used, of the target address and of
the pass direction; the search therefore always terminates. -/
theorem pass_iteration_bound :
    divCandidates.length = 386 ∧
    ∀ (bad : List Nat → Bool) (base : Int) (neg : Bool),
      passSteps bad base neg divCandidates ≤ 386 := by
  have hlen : divCandidates.length = 386 := by simp [divCandidates]
  refine ⟨hlen, fun bad base neg => ?_⟩
  have := passSteps_le_length bad base neg divCandidates
  omega

set_option maxRecDepth 40000 in
/-- Claim C9: for every target in `[0x604, 2^32 - 1 - 0x604]` each
`struct.pack` argument of both passes stays in `[0, 2^32)`, so
`generate_offset` returns a divisor without raising; outside that range it
can raise instead of returning the fallback — at `offset = 0` the negative
pass packs `0 - 4 < 0` and `struct.error` escapes (modelled as `none`). -/
theorem generate_offset_pack_safety :
    (∀ offset : Int, 0x604 ≤ offset → offset ≤ 4294967295 - 0x604 →
      (generate_offset offset).isSome = true) ∧
    generate_offset 0 = none := by
  constructor
  · intro offset h1 h2
    have hall : ∀ (neg : Bool), ∀ m ∈ divCandidates,
        (pack32 (if neg then offset - (m : Int) else offset + (m : Int))).isSome = true ∧
        (pack16 m).isSome = true := by
      intro neg m hm
      obtain ⟨hle, _⟩ := divCand_le hm
      refine ⟨?_, pack16_isSome (by omega)⟩
      cases neg
      · simp only [if_neg Bool.false_ne_true]
        exact pack32_isSome (by omega) (by omega)
      · simp only [if_pos rfl]
        exact pack32_isSome (by omega) (by omega)
    have hpos := @passLoopGen_isSome has_bad_uart_chars offset false divCandidates (hall false)
    have hneg := @passLoopGen_isSome has_bad_uart_chars offset true divCandidates (hall true)
    unfold generate_offset
    obtain ⟨o1, ho1⟩ := Option.isSome_iff_exists.mp hpos
    rw [ho1]
    cases o1 with
    | some r => rfl
    | none =>
      obtain ⟨o2, ho2⟩ := Option.isSome_iff_exists.mp hneg
      rw [ho2]
      cases o2 with
      | some r => rfl
      | none => rfl
  · decide

/-- Claim C10: the final validator `uart_valid_sc` and the search-time
filter `has_bad_uart_chars` use the same forbidden byte list and agree on
every buffer: `uart_valid_sc b = !has_bad_uart_chars b`. -/
theorem uart_valid_sc_matches_search_filter :
    sc_badchars = badchars ∧
    ∀ sc : List Nat, uart_valid_sc sc = !has_bad_uart_chars sc := by
  refine ⟨rfl, fun sc => ?_⟩
  induction sc with
  | nil => rfl
  | cons c rest ih =>
    simp only [uart_valid_sc, has_bad_uart_chars, List.any_cons]
    have hsc : sc_badchars.contains c = badchars.contains c := rfl
    rw [hsc]
    by_cases hc : c ∈ badchars
    · simp [hc]
    · simp [hc, ih, has_bad_uart_chars]

/-- Claim C8: the forbidden set is exactly
`{0x00, 0x0A, 0x0D, 0x08, 0x7F, 0x20, 0x09}` and `has_bad_uart_chars`
reports a buffer safe (returns `false`) iff no byte of the buffer belongs
to it. -/
theorem has_bad_uart_chars_iff_forbidden :
    badchars = [0x00, 0x0A, 0x0D, 0x08, 0x7F, 0x20, 0x09] ∧
    ∀ data : List Nat, (has_bad_uart_chars data = false ↔ ∀ c ∈ data, c ∉ badchars) := by
  refine ⟨rfl, fun data => ?_⟩
  simp [has_bad_uart_chars, List.any_eq_false]

/-- Claim C4: an input whose class byte (index 4) is neither 1 (32-bit) nor
2 (64-bit) makes `ELF.parse` fail with the invalid-class error (in the
source: print a message and return the sentinel `['', '']`), producing no
program entries and hence no partial image. -/
theorem parse_rejects_invalid_class (data : List Nat) (c : Nat)
    (h4 : data.get? 4 = some c) (h1 : c ≠ 1) (h2 : c ≠ 2) :
    parse data = Except.error ParseError.InvalidClass := by
  unfold parse
  rw [h4]
  simp [h1, h2]

/-- Witness for C4 on a 5-byte input with class byte 9. -/
theorem parse_rejects_invalid_class_witness :
    parse [0, 0, 0, 0, 9] = Except.error ParseError.InvalidClass :=
  parse_rejects_invalid_class [0, 0, 0, 0, 9] 9 rfl (by decide) (by decide)

/-- Claim C7: `getfileoffset`, `getvirtaddr` and `getbaseaddr` are total
lookups equal to a `find?` first-match scan in table order: a query inside
some segment's inclusive range returns the first matching segment's
translation, and a query outside all segments yields `none` rather than an
error. -/
theorem lookups_total_first_match (layout : List MemorySegment) (q : Nat) :
    getfileoffset layout q =
      (layout.find? (fun s => decide (s.virt_end_addr ≥ q ∧ q ≥ s.virt_start_addr))).map
        (fun s => q - s.virt_start_addr + s.file_start_addr) ∧
    getvirtaddr layout q =
      (layout.find? (fun s => decide (s.file_end_addr ≥ q ∧ q ≥ s.file_start_addr))).map
        (fun s => s.virt_start_addr + q - s.file_start_addr) ∧
    getbaseaddr layout q =
      (layout.find? (fun s => decide (s.virt_end_addr ≥ q ∧ q ≥ s.virt_start_addr))).map
        (fun s => s.virt_start_addr) :=
  ⟨getfileoffset_eq_find layout q, getvirtaddr_eq_find layout q, getbaseaddr_eq_find layout q⟩

/-- Claim C3 counterexample: the parsed single-segment image `demoData`
(the spec's own scenario: `vaddr = 0x1000`, `fileOffset = 0x40`,
`fileSize = 0x100`, `memSize = 0x200`) has the virtual address `0x1150`
inside the segment's range, but `getvirtaddr (getfileoffset 0x1150)` is
`none`, not `some 0x1150`: the translated file offset `0x190` lies beyond
`file_end_addr = 0x140` because `memSize > fileSize`. -/
theorem roundtrip_counterexample :
    parse demoData = Except.ok (demoData, [demoEntry]) ∧
    buildLayout [demoEntry] = demoLayout ∧
    demoSeg ∈ demoLayout ∧
    demoSeg.virt_start_addr ≤ 0x1150 ∧ (0x1150 : Nat) ≤ demoSeg.virt_end_addr ∧
    (getfileoffset demoLayout 0x1150).bind (getvirtaddr demoLayout) = none := by
  refine ⟨rfl, rfl, by decide, by decide, by decide, rfl⟩

/-- Claim C3 (amended): the round trip
`fileOffsetToVirtual (virtualToFileOffset o) = o` holds for exactly those
addresses `o` whose first-matching segment by virtual range is also the
first-matching segment, by file range, of the translated file offset (in
particular `o` must lie in the file-backed part of its segment). -/
theorem roundtrip_amended (layout : List MemorySegment) (o : Nat) (S : MemorySegment)
    (h1 : layout.find? (fun s => decide (s.virt_end_addr ≥ o ∧ o ≥ s.virt_start_addr)) = some S)
    (h2 : layout.find? (fun s =>
        decide (s.file_end_addr ≥ (o - S.virt_start_addr + S.file_start_addr) ∧
          (o - S.virt_start_addr + S.file_start_addr) ≥ s.file_start_addr)) = some S) :
    (getfileoffset layout o).bind (getvirtaddr layout) = some o := by
  have hx := getfileoffset_eq_find layout o
  rw [h1] at hx
  have hp := List.find?_some h1
  simp only [decide_eq_true_eq] at hp
  have hy := getvirtaddr_eq_find layout (o - S.virt_start_addr + S.file_start_addr)
  rw [h2] at hy
  have hx2 : getfileoffset layout o = some (o - S.virt_start_addr + S.file_start_addr) := by
    rw [hx]; rfl
  have hy2 : getvirtaddr layout (o - S.virt_start_addr + S.file_start_addr) =
      some (S.virt_start_addr + (o - S.virt_start_addr + S.file_start_addr) - S.file_start_addr) := by
    rw [hy]; rfl
  rw [hx2]
  show getvirtaddr layout (o - S.virt_start_addr + S.file_start_addr) = some o
  rw [hy2]
  simp only [Option.some.injEq]
  omega

/-- Witness for the amended C3 on the demo image at `o = 0x1050`. -/
theorem roundtrip_amended_witness :
    (getfileoffset demoLayout 0x1050).bind (getvirtaddr demoLayout) = some 0x1050 :=
  roundtrip_amended demoLayout 0x1050 demoSeg (by decide) (by decide)

set_option maxRecDepth 100000 in
/-- Claim C2 counterexample: at `targetAddress = 0x20202020` the computed
divisor is `0` (the fallback), yet `generate_offset_asm` still emits a third
instruction `add x1, x1, #0x0` — the claim says the third instruction is
omitted when the divisor is `0`. -/
theorem generate_offset_asm_zero_divisor :
    generate_offset 0x20202020 = some 0 ∧
    generate_offset_asm 0x20202020 "x1" =
      some "# 0x20202020\nmov x1, #0x2020;\nmovk x1, #0x2020, LSL#16;\nadd  x1, x1, #0x0;\n" := by
  have h : generate_offset 0x20202020 = some 0 := by decide
  refine ⟨h, ?_⟩
  unfold generate_offset_asm
  rw [h]
  rfl

/-- Claim C2 (amended): `generate_offset_asm` emits (1) a move of the low
16 bits of `targetAddress + divisor`, (2) a move-keep of the high 16 bits
(the two halves recombine exactly to `(targetAddress + divisor) mod 2^32`),
and (3) a subtract of the divisor when `divisor > 0`, else — including when
`divisor == 0` — an add of `abs(divisor)`; with divisor `0` the emitted third
instruction is `add reg, reg, #0x0`, not omitted. -/
theorem generate_offset_asm_structure (offset : Int) (reg : String) (div : Int)
    (h : generate_offset offset = some div) :
    ∃ a abase : Nat,
      a = pyMask32 (offset + div) 0xFFFF ∧
      abase = pyMask32 (offset + div) 0xFFFF0000 >>> 16 ∧
      (a : Int) + 65536 * (abase : Int) = (offset + div).emod 4294967296 ∧
      generate_offset_asm offset reg =
        some (if div > 0 then
          "" ++ "# " ++ pyhex offset ++ "\n" ++
          "mov " ++ reg ++ ", #" ++ pyhex (a : Int) ++ ";\n" ++
          "movk " ++ reg ++ ", #" ++ pyhex (abase : Int) ++ ", LSL#16;\n" ++
          "sub  " ++ reg ++ ", " ++ reg ++ ", #" ++ pyhex div ++ ";\n"
        else
          "" ++ "# " ++ pyhex offset ++ "\n" ++
          "mov " ++ reg ++ ", #" ++ pyhex (a : Int) ++ ";\n" ++
          "movk " ++ reg ++ ", #" ++ pyhex (abase : Int) ++ ", LSL#16;\n" ++
          "add  " ++ reg ++ ", " ++ reg ++ ", #" ++ pyhex (-div) ++ ";\n") := by
  refine ⟨pyMask32 (offset + div) 0xFFFF, pyMask32 (offset + div) 0xFFFF0000 >>> 16,
    rfl, rfl, ?_, ?_⟩
  · have hnn : 0 ≤ (offset + div).emod 4294967296 := Int.emod_nonneg _ (by norm_num)
    have hlt : (offset + div).emod 4294967296 < 4294967296 :=
      Int.emod_lt_of_pos _ (by norm_num)
    have hm : ((offset + div).emod 4294967296).toNat < 4294967296 := by omega
    have key := mask_split ((offset + div).emod 4294967296).toNat hm
    zify at key
    rw [Int.toNat_of_nonneg hnn] at key
    unfold pyMask32
    exact_mod_cast key
  · unfold generate_offset_asm
    rw [h]
    by_cases h0 : div > 0
    · simp only [Option.map_some', if_pos h0]
    · simp only [Option.map_some', if_neg h0]



/-- Witness for the amended C2 at `targetAddress = 0x41414141`, register `x1`. -/
theorem generate_offset_asm_structure_witness :
    ∃ a abase : Nat,
      a = pyMask32 ((0x41414141 : Int) + (260 : Int)) 0xFFFF ∧
      abase = pyMask32 ((0x41414141 : Int) + (260 : Int)) 0xFFFF0000 >>> 16 ∧
      (a : Int) + 65536 * (abase : Int) = ((0x41414141 : Int) + (260 : Int)).emod 4294967296 ∧
      generate_offset_asm 0x41414141 "x1" =
        some (if (260 : Int) > 0 then
          "" ++ "# " ++ pyhex 0x41414141 ++ "\n" ++
          "mov " ++ "x1" ++ ", #" ++ pyhex (a : Int) ++ ";\n" ++
          "movk " ++ "x1" ++ ", #" ++ pyhex (abase : Int) ++ ", LSL#16;\n" ++
          "sub  " ++ "x1" ++ ", " ++ "x1" ++ ", #" ++ pyhex 260 ++ ";\n"
        else
          "" ++ "# " ++ pyhex 0x41414141 ++ "\n" ++
          "mov " ++ "x1" ++ ", #" ++ pyhex (a : Int) ++ ";\n" ++
          "movk " ++ "x1" ++ ", #" ++ pyhex (abase : Int) ++ ", LSL#16;\n" ++
          "add  " ++ "x1" ++ ", " ++ "x1" ++ ", #" ++ pyhex (-260) ++ ";\n") :=
  generate_offset_asm_structure 0x41414141 "x1" 260 (by decide)

/-- Witness for C1 at `targetAddress = 0x41414141`, divisor `260 = 0x104`. -/
theorem generate_offset_minimal_witness :
    ∃ n : Nat, (n : Int) = (260 : Int) ∧ n % 4 = 0 ∧ n < 0x606 ∧
      divOkAt 0x41414141 false n = true ∧
      ∀ m : Nat, m % 4 = 0 → m < n →
        (pack32 ((0x41414141 : Int) + (m : Int))).isSome = true ∧ (pack16 m).isSome = true ∧
        divOkAt 0x41414141 false m = false :=
  (generate_offset_minimal 0x41414141 260 (by decide) (by decide)).1 (by decide)

/-- Witness for C5 at `targetAddress = 0x41414141`. -/
theorem generate_offset_divisor_bounds_witness :
    (260 : Int).natAbs < 0x606 ∧ (4 : Int) ∣ (260 : Int) :=
  generate_offset_divisor_bounds 0x41414141 260 (by decide)

/-- Witness for C9 at the lower end `offset = 0x604` of the safe range. -/
theorem generate_offset_pack_safety_witness :
    (generate_offset 0x604).isSome = true :=
  generate_offset_pack_safety.1 0x604 (by decide) (by decide)

/-- Witness for C6 with the concrete filter and target `0`. -/
theorem pass_iteration_bound_witness :
    passSteps has_bad_uart_chars 0 false divCandidates ≤ 386 :=
  pass_iteration_bound.2 has_bad_uart_chars 0 false

/-- Witness for C7 on the demo layout at query `0x1050`. -/
theorem lookups_total_first_match_witness :
    getfileoffset demoLayout 0x1050 =
      (demoLayout.find? (fun s => decide (s.virt_end_addr ≥ 0x1050 ∧ 0x1050 ≥ s.virt_start_addr))).map
        (fun s => 0x1050 - s.virt_start_addr + s.file_start_addr) ∧
    getvirtaddr demoLayout 0x1050 =
      (demoLayout.find? (fun s => decide (s.file_end_addr ≥ 0x1050 ∧ 0x1050 ≥ s.file_start_addr))).map
        (fun s => s.virt_start_addr + 0x1050 - s.file_start_addr) ∧
    getbaseaddr demoLayout 0x1050 =
      (demoLayout.find? (fun s => decide (s.virt_end_addr ≥ 0x1050 ∧ 0x1050 ≥ s.virt_start_addr))).map
        (fun s => s.virt_start_addr) :=
  lookups_total_first_match demoLayout 0x1050

/-- Witness for C8 on the buffer `[0x41, 0x42]`. -/
theorem has_bad_uart_chars_iff_forbidden_witness :
    has_bad_uart_chars [0x41, 0x42] = false ↔ ∀ c ∈ [0x41, 0x42], c ∉ badchars :=
  has_bad_uart_chars_iff_forbidden.2 [0x41, 0x42]

/-- Witness for C10 on the buffer `[0x41, 0x0A]`. -/
theorem uart_valid_sc_matches_search_filter_witness :
    uart_valid_sc [0x41, 0x0A] = !has_bad_uart_chars [0x41, 0x0A] :=
  uart_valid_sc_matches_search_filter.2 [0x41, 0x0A]

end Mtk
